import Mathlib

/-!
Verification of the design-analysis engine of the embroidery estimator.

The definitions below are a shallow embedding of
`src/utils/design_analyzer.py` (class `DesignAnalyzer`).  Stitch
coordinates are modelled as real numbers (the Python code works on
floats produced from integer DST coordinates); numpy array pipelines
become list pipelines; numpy reductions become folds.
-/

open Classical

/-- A decoded stitch record `(x, y, command)`: coordinates in tenths of a
millimetre plus a pyembroidery command code. -/
structure StitchRec where
  x : ℝ
  y : ℝ
  cmd : ℤ

/-- pyembroidery command code for a normal stitch. -/
def STITCH : ℤ := 0

/-- pyembroidery command code for a jump. -/
def JUMP : ℤ := 1

/-- pyembroidery command code for a colour change. -/
def COLOR_CHANGE : ℤ := 5

/-- Default record used only as an out-of-range fallback for `List.getD`. -/
def dummyRec : StitchRec := ⟨0, 0, 0⟩

/-- All consecutive pairs `(l[i], l[i+1])` of a list, in order.  This is the
shape shared by the `for i in range(1, len(stitches))` loop and the
`np.diff` pipelines of `design_analyzer.py`. -/
def consecPairs {α : Type} : List α → List (α × α)
  | a :: b :: rest => (a, b) :: consecPairs (b :: rest)
  | _ => []

/-- `np.min` over a nonempty list of reals (0 on `[]`, a case the Python
code never reaches without raising). -/
noncomputable def listMin : List ℝ → ℝ
  | [] => 0
  | a :: l => l.foldl min a

/-- `np.max` over a nonempty list of reals (0 on `[]`). -/
noncomputable def listMax : List ℝ → ℝ
  | [] => 0
  | a :: l => l.foldl max a

/-- `np.min(stitches[:, 0])`. -/
noncomputable def minX (tr : List StitchRec) : ℝ := listMin (tr.map (·.x))

/-- `np.max(stitches[:, 0])`. -/
noncomputable def maxX (tr : List StitchRec) : ℝ := listMax (tr.map (·.x))

/-- `np.min(stitches[:, 1])`. -/
noncomputable def minY (tr : List StitchRec) : ℝ := listMin (tr.map (·.y))

/-- `np.max(stitches[:, 1])`. -/
noncomputable def maxY (tr : List StitchRec) : ℝ := listMax (tr.map (·.y))

/-- One summand of the thread-length loop:
`np.sqrt(dx*dx + dy*dy)` for a consecutive pair of records. -/
noncomputable def segDist (p q : StitchRec) : ℝ :=
  Real.sqrt ((q.x - p.x) * (q.x - p.x) + (q.y - p.y) * (q.y - p.y))

/-- The accumulated `thread_length` of `_calculate_metrics`: the loop
`for i in range(1, len(stitches))` adds the Euclidean distance of every
consecutive pair of records, regardless of command kind. -/
noncomputable def thread_length (tr : List StitchRec) : ℝ :=
  ((consecPairs tr).map (fun pq => segDist pq.1 pq.2)).sum

/-- `np.arctan2 y x`, modelled as the argument of the complex number
`x + y i` (the same piecewise-arctan function on the reals). -/
noncomputable def atan2 (y x : ℝ) : ℝ := Complex.arg ⟨x, y⟩

/-- `np.diff(stitches[:, :2], axis=0)`: per-step displacement vectors
between consecutive records, all command kinds included. -/
def vectors (tr : List StitchRec) : List (ℝ × ℝ) :=
  (consecPairs tr).map (fun pq => (pq.2.x - pq.1.x, pq.2.y - pq.1.y))

/-- `np.arctan2(vectors[:, 1], vectors[:, 0])`: heading angle per vector. -/
noncomputable def headings (tr : List StitchRec) : List ℝ :=
  (vectors tr).map (fun v => atan2 v.2 v.1)

/-- `np.abs(np.diff(angles))`: raw absolute deltas between consecutive
heading angles (no reduction to `[0, π]`). -/
noncomputable def angleChanges (tr : List StitchRec) : List ℝ :=
  (consecPairs (headings tr)).map (fun ab => |ab.2 - ab.1|)

/-- `np.sum(l > c)`: how many entries of `l` exceed `c`. -/
noncomputable def countGT (c : ℝ) (l : List ℝ) : ℕ :=
  (l.map (fun d => if c < d then 1 else 0)).sum

/-- `np.mean` of a list of reals. -/
noncomputable def listMean (l : List ℝ) : ℝ := l.sum / l.length

/-- `np.var`: population variance, the mean of squared deviations. -/
noncomputable def listVar (l : List ℝ) : ℝ :=
  ((l.map (fun v => (v - listMean l) ^ 2)).sum) / l.length

/-- Python's `round(v, 2)`, idealised over the reals as rounding
`v * 100` to the nearest integer and dividing back (Python's float
banker's rounding differs only at exact half-cent ties, which the
claims never exercise). -/
noncomputable def round2 (v : ℝ) : ℝ := ((round (v * 100) : ℤ) : ℝ) / 100

/-- The dict returned by `_calculate_complexity_score`. -/
structure ComplexityData where
  complexity_score : ℝ
  direction_changes : ℕ
  density_score : ℝ
  stitch_length_variance : ℝ

/-- `DesignAnalyzer._calculate_complexity_score`, line for line:
all-zero floor for traces shorter than 2 records, otherwise raw
direction-change count, clamped density score, clamped length-variance
score and the weighted, capped, rounded composite. -/
noncomputable def calculate_complexity_score (stitches : List StitchRec) : ComplexityData :=
  if stitches.length < 2 then
    { complexity_score := 0
      direction_changes := 0
      density_score := 0
      stitch_length_variance := 0 }
  else
    let direction_changes := countGT (Real.pi / 4) (angleChanges stitches)
    let area_mm2 := (maxX stitches - minX stitches) * (maxY stitches - minY stitches) * 0.01
    let density := if 0 < area_mm2 then (stitches.length : ℝ) / area_mm2 else 0
    let density_score := min (density / 5) 10
    let stitch_lengths := (vectors stitches).map (fun v => Real.sqrt (v.1 * v.1 + v.2 * v.2))
    let length_variance := if 0 < stitch_lengths.length then listVar stitch_lengths else 0
    let length_variance_score := min (length_variance / 100) 10
    let complexity_score :=
      min ((direction_changes : ℝ) / (stitches.length : ℝ) * 40 +
        density_score * 30 + length_variance_score * 30) 100
    { complexity_score := round2 complexity_score
      direction_changes := direction_changes
      density_score := round2 density_score
      stitch_length_variance := round2 length_variance_score }

/-- The metrics dict returned by `_calculate_metrics`. -/
structure Metrics where
  width_mm : ℝ
  height_mm : ℝ
  stitch_count : ℕ
  thread_length_yards : ℝ
  complexity_score : ℝ
  direction_changes : ℕ
  density_score : ℝ
  stitch_length_variance : ℝ

/-- `DesignAnalyzer._calculate_metrics`: bounding box converted to mm
(DST units are 0.1 mm), thread length over every consecutive pair
converted to yards, stitch count, and the complexity sub-dict. -/
noncomputable def calculate_metrics (stitches : List StitchRec) : Metrics :=
  let c := calculate_complexity_score stitches
  { width_mm := (maxX stitches - minX stitches) * 0.1
    height_mm := (maxY stitches - minY stitches) * 0.1
    stitch_count := stitches.length
    thread_length_yards := thread_length stitches * 0.1 / 914.4
    complexity_score := c.complexity_score
    direction_changes := c.direction_changes
    density_score := c.density_score
    stitch_length_variance := c.stitch_length_variance }

/-- `DesignAnalyzer._segment_by_color`: `num_colors ≤ 0` yields a single
segment; otherwise `stitches_per_color = len // num_colors` records per
segment, the last segment sliced up to `len(stitches)`.  Python slices
`stitches[a:b]` become `(take (b - a)) ∘ (drop a)`. -/
def segment_by_color {α : Type} (stitches : List α) (num_colors : ℤ) : List (List α) :=
  if num_colors ≤ 0 then [stitches]
  else
    let n := num_colors.toNat
    let stitches_per_color := stitches.length / n
    (List.range n).map (fun i =>
      if i < n - 1 then (stitches.drop (i * stitches_per_color)).take stitches_per_color
      else stitches.drop (i * stitches_per_color))

/-- numpy's bin index for a value `v` of one axis with data range
`[lo, hi]` split into `n` equal bins: half-open bins with the last bin
closed at `hi`; a degenerate range `lo = hi` is expanded by `±0.5` as
`numpy.histogramdd` does. -/
noncomputable def binIdx (lo hi : ℝ) (n : ℕ) (v : ℝ) : ℕ :=
  let lo' := if lo = hi then lo - 0.5 else lo
  let hi' := if lo = hi then hi + 0.5 else hi
  if v = hi' then n - 1 else ⌊(v - lo') / (hi' - lo') * n⌋₊

/-- Which cell of the 2D histogram a record falls in, for the grid of
`_calculate_density_map` (range exactly the bounding box of the data). -/
noncomputable def cellOf (tr : List StitchRec) (n : ℕ) (p : StitchRec) : ℕ × ℕ :=
  (binIdx (minX tr) (maxX tr) n p.x, binIdx (minY tr) (maxY tr) n p.y)

/-- `DesignAnalyzer._calculate_density_map` as the cell-count function of
the `np.histogram2d` it returns: entry `(i, j)` is the number of records
binned into cell `(i, j)`. -/
noncomputable def calculate_density_map (tr : List StitchRec) (grid_size : ℕ) (i j : ℕ) : ℕ :=
  (tr.filter (fun p => decide (cellOf tr grid_size p = (i, j)))).length

/-- Python exception values reachable from `analyze_file`:
the `ValueError` it raises itself, the blanket re-wrap
`Exception(f"Error analyzing design: ...")`, and whatever the decoder
raised. -/
inductive PyExc where
  | valueError (msg : String)
  | generic (msg : String)
  | decoder (msg : String)

/-- `str(e)` on a modelled exception. -/
def PyExc.msg : PyExc → String
  | .valueError m => m
  | .generic m => m
  | .decoder m => m

/-- `True` exactly for the blanket `Exception` re-wrap. -/
def PyExc.isGeneric : PyExc → Bool
  | .generic _ => true
  | _ => false

/-- What `pyembroidery.read` can return when it does not raise:
a falsy result, an object without a `stitches` attribute, or a pattern
carrying a stitch list. -/
inductive DecodeResult where
  | none
  | noStitches
  | pattern (stitches : List StitchRec)

/-- numpy's message when `_calculate_metrics` column-indexes the empty
stitch array (`IndexError`), kept as the wrapped message text. -/
def emptyArrayMsg : String := "too many indices for array"

/-- `DesignAnalyzer.analyze_file`, with the decoder call abstracted as its
outcome `dec` (raised exception or returned value).  First component:
the call's own outcome — the metrics dict, or the raised exception.
Every failure, including the internally raised
`ValueError("Invalid design file")`, is caught by the blanket
`except Exception` and re-raised as
`Exception("Error analyzing design: " + str(e))`.
Second component: whether the temporary file staged for the decoder has
been removed when the call returns — `os.remove` runs right after
`pyembroidery.read` returns, so it is skipped exactly when the decoder
raises. -/
noncomputable def analyze_file (dec : Except PyExc DecodeResult) :
    Except PyExc Metrics × Bool :=
  match dec with
  | .error e => (.error (.generic ("Error analyzing design: " ++ e.msg)), false)
  | .ok .none => (.error (.generic ("Error analyzing design: " ++ "Invalid design file")), true)
  | .ok .noStitches =>
      (.error (.generic ("Error analyzing design: " ++ "Invalid design file")), true)
  | .ok (.pattern s) =>
      if s.isEmpty then (.error (.generic ("Error analyzing design: " ++ emptyArrayMsg)), true)
      else (.ok (calculate_metrics s), true)

/-- Uniform scaling of all coordinates of a trace by `k`. -/
def scaleTrace (k : ℝ) (tr : List StitchRec) : List StitchRec :=
  tr.map (fun p => ⟨k * p.x, k * p.y, p.cmd⟩)

/-- Spec-side predicate for C1: the trace has no two consecutive records
that are both STITCH commands. -/
def noConsecStitch (tr : List StitchRec) : Prop :=
  ∀ pq ∈ consecPairs tr, ¬(pq.1.cmd = STITCH ∧ pq.2.cmd = STITCH)

/-- Amended-spec thread length for C1, written independently of the list
pipeline: the sum over indices `i < len − 1` of the Euclidean distance
between records `i` and `i + 1`, every command kind included. -/
noncomputable def thread_length_all_pairs (tr : List StitchRec) : ℝ :=
  ∑ i in Finset.range (tr.length - 1),
    Real.sqrt
      (((tr.getD (i + 1) dummyRec).x - (tr.getD i dummyRec).x) *
          ((tr.getD (i + 1) dummyRec).x - (tr.getD i dummyRec).x) +
        ((tr.getD (i + 1) dummyRec).y - (tr.getD i dummyRec).y) *
          ((tr.getD (i + 1) dummyRec).y - (tr.getD i dummyRec).y))

/-- Spec-side reduction of an absolute angular delta (taken in `[0, 2π]`)
to the interval `[0, π]`. -/
noncomputable def reduceAngle (d : ℝ) : ℝ :=
  if Real.pi < d then 2 * Real.pi - d else d

/-- C2 as the spec states it: count of consecutive-heading deltas whose
absolute value, first reduced to `[0, π]`, exceeds `π/4`. -/
noncomputable def direction_changes_spec (tr : List StitchRec) : ℕ :=
  countGT (Real.pi / 4) ((angleChanges tr).map reduceAngle)

/-- The heading angle of the displacement from record `i` to record
`i + 1`, written by index. -/
noncomputable def heading_at (tr : List StitchRec) (i : ℕ) : ℝ :=
  atan2 ((tr.getD (i + 1) dummyRec).y - (tr.getD i dummyRec).y)
    ((tr.getD (i + 1) dummyRec).x - (tr.getD i dummyRec).x)

/-- Amended-spec direction-change count for C2, written independently of
the list pipeline: raw absolute heading deltas (no reduction to
`[0, π]`) exceeding `π/4`, indexed over `i < len − 2`. -/
noncomputable def direction_changes_raw (tr : List StitchRec) : ℕ :=
  ∑ i in Finset.range (tr.length - 2),
    if Real.pi / 4 < |heading_at tr (i + 1) - heading_at tr i| then 1 else 0

/-! ### List helper lemmas -/

lemma foldl_max_init (l : List ℝ) (b : ℝ) : b ≤ l.foldl max b := by
  induction l generalizing b with
  | nil => exact le_rfl
  | cons a t ih => exact le_trans (le_max_left b a) (ih (max b a))

lemma foldl_max_mem (l : List ℝ) (b a : ℝ) (ha : a ∈ l) : a ≤ l.foldl max b := by
  induction l generalizing b with
  | nil => cases ha
  | cons c t ih =>
    rcases List.mem_cons.mp ha with h | h
    · subst h
      exact le_trans (le_max_right b a) (foldl_max_init t (max b a))
    · exact ih (max b c) h

lemma foldl_min_init (l : List ℝ) (b : ℝ) : l.foldl min b ≤ b := by
  induction l generalizing b with
  | nil => exact le_rfl
  | cons a t ih => exact le_trans (ih (min b a)) (min_le_left b a)

lemma foldl_min_mem (l : List ℝ) (b a : ℝ) (ha : a ∈ l) : l.foldl min b ≤ a := by
  induction l generalizing b with
  | nil => cases ha
  | cons c t ih =>
    rcases List.mem_cons.mp ha with h | h
    · subst h
      exact le_trans (foldl_min_init t (min b a)) (min_le_right b a)
    · exact ih (min b c) h

lemma le_listMax (l : List ℝ) (a : ℝ) (ha : a ∈ l) : a ≤ listMax l := by
  cases l with
  | nil => cases ha
  | cons b t =>
    rcases List.mem_cons.mp ha with h | h
    · subst h; exact foldl_max_init t a
    · exact foldl_max_mem t b a h

lemma listMin_le (l : List ℝ) (a : ℝ) (ha : a ∈ l) : listMin l ≤ a := by
  cases l with
  | nil => cases ha
  | cons b t =>
    rcases List.mem_cons.mp ha with h | h
    · subst h; exact foldl_min_init t a
    · exact foldl_min_mem t b a h

lemma minX_le (tr : List StitchRec) (p : StitchRec) (hp : p ∈ tr) : minX tr ≤ p.x :=
  listMin_le _ _ (List.mem_map.mpr ⟨p, hp, rfl⟩)

lemma le_maxX (tr : List StitchRec) (p : StitchRec) (hp : p ∈ tr) : p.x ≤ maxX tr :=
  le_listMax _ _ (List.mem_map.mpr ⟨p, hp, rfl⟩)

lemma minY_le (tr : List StitchRec) (p : StitchRec) (hp : p ∈ tr) : minY tr ≤ p.y :=
  listMin_le _ _ (List.mem_map.mpr ⟨p, hp, rfl⟩)

lemma le_maxY (tr : List StitchRec) (p : StitchRec) (hp : p ∈ tr) : p.y ≤ maxY tr :=
  le_listMax _ _ (List.mem_map.mpr ⟨p, hp, rfl⟩)

lemma consecPairs_length {α : Type} (l : List α) :
    (consecPairs l).length = l.length - 1 := by
  induction l with
  | nil => rfl
  | cons a t ih =>
    cases t with
    | nil => rfl
    | cons b t' => simpa [consecPairs] using ih

lemma consecPairs_map {α β : Type} (f : α → β) (l : List α) :
    consecPairs (l.map f) = (consecPairs l).map (fun pq => (f pq.1, f pq.2)) := by
  induction l with
  | nil => rfl
  | cons a t ih =>
    cases t with
    | nil => rfl
    | cons b t' => simpa [consecPairs] using ih

lemma consecPairs_getD {α : Type} (l : List α) (d : α) :
    ∀ i, i + 1 < l.length →
      (consecPairs l).getD i (d, d) = (l.getD i d, l.getD (i + 1) d) := by
  induction l with
  | nil => intro i hi; simp at hi
  | cons a t ih =>
    intro i hi
    cases t with
    | nil => simp at hi
    | cons b t' =>
      cases i with
      | zero => simp [consecPairs]
      | succ j =>
        have hj : j + 1 < (b :: t').length := by
          simpa [List.length_cons] using Nat.lt_of_succ_lt_succ hi
        simpa [consecPairs] using ih j hj

lemma getD_map {α β : Type} (f : α → β) (l : List α) (d : β) (d' : α) :
    ∀ i, i < l.length → (l.map f).getD i d = f (l.getD i d') := by
  induction l with
  | nil => intro i hi; simp at hi
  | cons a t ih =>
    intro i hi
    cases i with
    | zero => rfl
    | succ j =>
      have hj : j < t.length := Nat.lt_of_succ_lt_succ (by simpa using hi)
      simpa using ih j hj

lemma list_sum_getD {M : Type} [AddCommMonoid M] (l : List M) (d : M) :
    l.sum = ∑ i in Finset.range l.length, l.getD i d := by
  induction l with
  | nil => simp
  | cons a t ih =>
    rw [List.sum_cons, List.length_cons, Finset.sum_range_succ' (fun i => (a :: t).getD i d)]
    simp only [List.getD_cons_succ, List.getD_cons_zero]
    rw [← ih, add_comm]

lemma sum_map_consecPairs {α : Type} {M : Type} [AddCommMonoid M]
    (g : α × α → M) (l : List α) (d : α) :
    ((consecPairs l).map g).sum =
      ∑ i in Finset.range (l.length - 1), g (l.getD i d, l.getD (i + 1) d) := by
  rw [list_sum_getD _ (g (d, d)), List.length_map, consecPairs_length]
  refine Finset.sum_congr rfl fun i hi => ?_
  have hi' : i + 1 < l.length := by
    have := Finset.mem_range.mp hi
    omega
  rw [getD_map g _ _ (d, d) i (by rw [consecPairs_length]; omega),
    consecPairs_getD l d i hi']

lemma join_chunks {α : Type} (l : List α) (s : ℕ) :
    ∀ m, ((List.range m).map (fun i => (l.drop (i * s)).take s)).flatten = l.take (m * s) := by
  intro m
  induction m with
  | zero => simp
  | succ m ih =>
    rw [List.range_succ, List.map_append, List.flatten_append, ih]
    simp only [List.map_cons, List.map_nil, List.flatten_cons, List.flatten_nil,
      List.append_nil]
    rw [← List.take_add]
    congr 1
    ring

lemma getD_map_range {α : Type} (f : ℕ → α) (d : α) (n i : ℕ) (h : i < n) :
    ((List.range n).map f).getD i d = f i := by
  rw [getD_map f _ d 0 i (by simpa using h)]
  congr 1
  rw [List.getD_eq_getElem?_getD, List.getElem?_range h]
  rfl

lemma round2_nonneg (v : ℝ) (hv : 0 ≤ v) : 0 ≤ round2 v := by
  unfold round2
  have h0 : (0 : ℤ) ≤ round (v * 100) := by
    rw [round_eq]
    exact Int.le_floor.mpr (by push_cast; linarith)
  have h1 : (0 : ℝ) ≤ ((round (v * 100) : ℤ) : ℝ) := by exact_mod_cast h0
  linarith

lemma round2_le (v : ℝ) (hv : v ≤ 100) : round2 v ≤ 100 := by
  unfold round2
  have h0 : round (v * 100) ≤ (10000 : ℤ) := by
    rw [round_eq]
    have : ⌊v * 100 + 1 / 2⌋ < (10001 : ℤ) := Int.floor_lt.mpr (by push_cast; linarith)
    omega
  have h1 : ((round (v * 100) : ℤ) : ℝ) ≤ 10000 := by exact_mod_cast h0
  linarith

lemma binIdx_lt (lo hi : ℝ) (n : ℕ) (v : ℝ) (hn : 1 ≤ n)
    (hlo : lo ≤ v) (hhi : v ≤ hi) : binIdx lo hi n v < n := by
  unfold binIdx
  by_cases heq : lo = hi
  · subst heq
    have hv : v = lo := le_antisymm hhi hlo
    subst hv
    simp only [eq_self_iff_true, if_true]
    have hne : ¬(v = v + 0.5) := by norm_num
    rw [if_neg hne]
    have harg : (v - (v - 0.5)) / (v + 0.5 - (v - 0.5)) * (n : ℝ) = (n : ℝ) / 2 := by
      ring
    rw [harg]
    have hn0 : (0 : ℝ) < (n : ℝ) := by exact_mod_cast hn
    exact Nat.floor_lt (by positivity) |>.mpr (by linarith)
  · simp only [if_neg heq]
    have hlt : lo < hi := lt_of_le_of_ne (le_trans hlo hhi) heq
    by_cases hv : v = hi
    · rw [if_pos hv]
      omega
    · rw [if_neg hv]
      have hvlt : v < hi := lt_of_le_of_ne hhi hv
      have hn0 : (0 : ℝ) < (n : ℝ) := by exact_mod_cast hn
      have hratio : (v - lo) / (hi - lo) < 1 := (div_lt_one (by linarith)).mpr (by linarith)
      have hnn : 0 ≤ (v - lo) / (hi - lo) := div_nonneg (by linarith) (by linarith)
      refine Nat.floor_lt (by positivity) |>.mpr ?_
      calc (v - lo) / (hi - lo) * (n : ℝ) < 1 * (n : ℝ) :=
            mul_lt_mul_of_pos_right hratio hn0
        _ = (n : ℝ) := one_mul _

lemma sum_filter_length {α β : Type} [DecidableEq β] (g : α → β) (s : Finset β) :
    ∀ l : List α, (∀ a ∈ l, g a ∈ s) →
      (∑ b in s, (l.filter (fun a => decide (g a = b))).length) = l.length := by
  intro l
  induction l with
  | nil => simp
  | cons a t ih =>
    intro h
    have ha : g a ∈ s := h a (List.mem_cons_self a t)
    have ht : ∀ b ∈ t, g b ∈ s := fun b hb => h b (List.mem_cons_of_mem a hb)
    have hsplit : ∀ b : β, ((a :: t).filter (fun c => decide (g c = b))).length =
        (if g a = b then 1 else 0) + (t.filter (fun c => decide (g c = b))).length := by
      intro b
      by_cases hgb : g a = b
      · simp [List.filter_cons, hgb]
        omega
      · simp [List.filter_cons, hgb]
    simp only [hsplit]
    rw [Finset.sum_add_distrib, ih ht]
    have hone : (∑ b in s, if g a = b then 1 else 0) = 1 := by
      rw [Finset.sum_ite_eq s (g a) (fun _ => 1)]
      simp [ha]
    rw [hone]
    simp [List.length_cons, Nat.add_comm]

lemma segment_by_color_pos {α : Type} (l : List α) (n : ℕ) (hn : 1 ≤ n) :
    segment_by_color l (n : ℤ) =
      (List.range n).map (fun i =>
        if i < n - 1 then (l.drop (i * (l.length / n))).take (l.length / n)
        else l.drop (i * (l.length / n))) := by
  unfold segment_by_color
  rw [if_neg (by exact_mod_cast Nat.not_succ_le_zero 0 ∘ fun h => absurd hn (by omega))]
  simp

/-- C6: for every trace and every `num_colors ≥ 1`, the colour segmenter
returns segments `0 .. num_colors-2` each of exactly
`⌊trace_length / num_colors⌋` consecutive records, the last segment
absorbing the remainder, and the concatenation of all segments in order
reconstructs the original trace exactly. -/
theorem segment_partition (l : List StitchRec) (n : ℕ) (hn : 1 ≤ n) :
    (segment_by_color l (n : ℤ)).length = n ∧
    (∀ i, i + 1 < n →
      ((segment_by_color l (n : ℤ)).getD i []).length = l.length / n) ∧
    (segment_by_color l (n : ℤ)).flatten = l := by
  rw [segment_by_color_pos l n hn]
  refine ⟨by simp, ?_, ?_⟩
  · intro i hi
    rw [getD_map_range _ _ n i (by omega)]
    rw [if_pos (by omega)]
    rw [List.length_take, List.length_drop]
    have h1 : (i + 1) * (l.length / n) ≤ l.length := by
      calc (i + 1) * (l.length / n) ≤ n * (l.length / n) :=
            Nat.mul_le_mul_right _ (by omega)
        _ = l.length / n * n := Nat.mul_comm _ _
        _ ≤ l.length := Nat.div_mul_le_self _ _
    rw [Nat.succ_mul] at h1
    omega
  · have hrange : List.range n = List.range (n - 1) ++ [n - 1] := by
      conv_lhs => rw [← Nat.succ_pred_eq_of_pos hn]
      rw [List.range_succ]
      rfl
    rw [hrange, List.map_append, List.flatten_append]
    have hbody : (List.range (n - 1)).map (fun i =>
        if i < n - 1 then (l.drop (i * (l.length / n))).take (l.length / n)
        else l.drop (i * (l.length / n))) =
        (List.range (n - 1)).map (fun i =>
          (l.drop (i * (l.length / n))).take (l.length / n)) := by
      refine List.map_congr_left fun i hi => ?_
      rw [if_pos (List.mem_range.mp hi)]
    rw [hbody, join_chunks l (l.length / n) (n - 1)]
    simp only [List.map_cons, List.map_nil, List.flatten_cons, List.flatten_nil,
      List.append_nil]
    rw [if_neg (lt_irrefl _)]
    exact List.take_append_drop _ l

/-- Witness for C6 at Scenario B: `num_colors = 3` over a 9-record trace
gives three segments of length 3 whose concatenation is the trace. -/
theorem segment_partition_witness :
    (segment_by_color (List.replicate 9 dummyRec) (3 : ℤ)).flatten =
        List.replicate 9 dummyRec ∧
    ((segment_by_color (List.replicate 9 dummyRec) (3 : ℤ)).getD 0 []).length = 3 ∧
    (segment_by_color (List.replicate 9 dummyRec) (3 : ℤ)).length = 3 := by
  have h := segment_partition (List.replicate 9 dummyRec) 3 (by norm_num)
  exact ⟨h.2.2, by simpa using h.2.1 0 (by norm_num), h.1⟩

/-- C10: for every trace shorter than `num_colors` (with `num_colors ≥ 1`)
the segmenter still returns exactly `num_colors` segments; segments
`0 .. num_colors-2` are all empty and the final segment is the whole
trace. -/
theorem segment_short_trace (l : List StitchRec) (n : ℕ) (hn : 1 ≤ n)
    (hlen : l.length < n) :
    (segment_by_color l (n : ℤ)).length = n ∧
    (∀ i, i + 1 < n → (segment_by_color l (n : ℤ)).getD i [] = []) ∧
    (segment_by_color l (n : ℤ)).getD (n - 1) [] = l := by
  have hspc : l.length / n = 0 := Nat.div_eq_of_lt hlen
  rw [segment_by_color_pos l n hn]
  refine ⟨by simp, ?_, ?_⟩
  · intro i hi
    rw [getD_map_range _ _ n i (by omega), if_pos (by omega), hspc]
    simp
  · rw [getD_map_range _ _ n (n - 1) (by omega), if_neg (lt_irrefl _), hspc]
    simp

/-- Witness for C10: a single-record trace split into 3 colours gives
segments `[[], [], [the record]]`. -/
theorem segment_short_trace_witness :
    (segment_by_color [dummyRec] (3 : ℤ)).length = 3 ∧
    (segment_by_color [dummyRec] (3 : ℤ)).getD 0 [] = [] ∧
    (segment_by_color [dummyRec] (3 : ℤ)).getD 2 [] = [dummyRec] := by
  have h := segment_short_trace [dummyRec] 3 (by norm_num) (by simp)
  exact ⟨h.1, h.2.1 0 (by norm_num), h.2.2⟩

lemma cellOf_mem (tr : List StitchRec) (n : ℕ) (hn : 1 ≤ n) (p : StitchRec)
    (hp : p ∈ tr) : cellOf tr n p ∈ Finset.range n ×ˢ Finset.range n := by
  rw [Finset.mem_product, Finset.mem_range, Finset.mem_range]
  exact ⟨binIdx_lt _ _ n _ hn (minX_le tr p hp) (le_maxX tr p hp),
    binIdx_lt _ _ n _ hn (minY_le tr p hp) (le_maxY tr p hp)⟩

/-- C7: for every non-empty trace and every `grid_size ≥ 1`, the sum over
all cells of the density grid equals the number of stitch records —
every record, including those on a bin edge or at the bounding-box
maximum, is counted in exactly one cell. -/
theorem density_map_total (tr : List StitchRec) (n : ℕ) (htr : tr ≠ []) (hn : 1 ≤ n) :
    (∑ i in Finset.range n, ∑ j in Finset.range n, calculate_density_map tr n i j) =
      tr.length := by
  unfold calculate_density_map
  rw [← Finset.sum_product']
  have hpair : ∀ b : ℕ × ℕ,
      (tr.filter (fun p => decide (cellOf tr n p = (b.1, b.2)))).length =
        (tr.filter (fun p => decide (cellOf tr n p = b))).length := by
    intro b
    rfl
  calc (∑ b in Finset.range n ×ˢ Finset.range n,
        (tr.filter (fun p => decide (cellOf tr n p = (b.1, b.2)))).length)
      = ∑ b in Finset.range n ×ˢ Finset.range n,
        (tr.filter (fun p => decide (cellOf tr n p = b))).length :=
        Finset.sum_congr rfl fun b _ => hpair b
    _ = tr.length :=
        sum_filter_length (cellOf tr n) (Finset.range n ×ˢ Finset.range n) tr
          (fun p hp => cellOf_mem tr n hn p hp)

/-- Witness for C7: a concrete 2-record trace on a 3×3 grid. -/
theorem density_map_total_witness :
    (∑ i in Finset.range 3, ∑ j in Finset.range 3,
        calculate_density_map [⟨0, 0, 0⟩, ⟨100, 50, 0⟩] 3 i j) = 2 := by
  have h := density_map_total [⟨0, 0, 0⟩, ⟨100, 50, 0⟩] 3 (by simp) (by norm_num)
  simpa using h

/-- C5: the complexity scorer returns `complexity_score ∈ [0, 100]` for
every input trace, and returns exactly 0 for `complexity_score`,
`direction_changes`, `density_score` and `stitch_length_variance` on
every trace with fewer than 2 records, without failing. -/
theorem complexity_score_bounds (tr : List StitchRec) :
    (0 ≤ (calculate_complexity_score tr).complexity_score ∧
      (calculate_complexity_score tr).complexity_score ≤ 100) ∧
    (tr.length < 2 →
      (calculate_complexity_score tr).complexity_score = 0 ∧
      (calculate_complexity_score tr).direction_changes = 0 ∧
      (calculate_complexity_score tr).density_score = 0 ∧
      (calculate_complexity_score tr).stitch_length_variance = 0) := by
  unfold calculate_complexity_score
  by_cases h : tr.length < 2
  · rw [if_pos h]
    exact ⟨⟨le_rfl, by norm_num⟩, fun _ => ⟨rfl, rfl, rfl, rfl⟩⟩
  · rw [if_neg h]
    refine ⟨?_, fun h2 => absurd h2 h⟩
    dsimp only
    have hdc : (0 : ℝ) ≤ (countGT (Real.pi / 4) (angleChanges tr) : ℝ) /
        (tr.length : ℝ) * 40 := by positivity
    have hdens : (0 : ℝ) ≤ (if 0 < (maxX tr - minX tr) * (maxY tr - minY tr) * 0.01
        then (tr.length : ℝ) / ((maxX tr - minX tr) * (maxY tr - minY tr) * 0.01)
        else 0) := by
      split
      · exact div_nonneg (Nat.cast_nonneg _) (by linarith [‹0 < (maxX tr - minX tr) *
          (maxY tr - minY tr) * 0.01›])
      · exact le_rfl
    have hds : (0 : ℝ) ≤ min ((if 0 < (maxX tr - minX tr) * (maxY tr - minY tr) * 0.01
        then (tr.length : ℝ) / ((maxX tr - minX tr) * (maxY tr - minY tr) * 0.01)
        else 0) / 5) 10 := le_min (by linarith) (by norm_num)
    have hvar : (0 : ℝ) ≤ (if 0 < ((vectors tr).map
        (fun v => Real.sqrt (v.1 * v.1 + v.2 * v.2))).length
        then listVar ((vectors tr).map (fun v => Real.sqrt (v.1 * v.1 + v.2 * v.2)))
        else 0) := by
      split
      · exact div_nonneg
          (List.sum_nonneg fun a ha => by
            rcases List.mem_map.mp ha with ⟨v, _, rfl⟩
            exact sq_nonneg _)
          (Nat.cast_nonneg _)
      · exact le_rfl
    have hlvs : (0 : ℝ) ≤ min ((if 0 < ((vectors tr).map
        (fun v => Real.sqrt (v.1 * v.1 + v.2 * v.2))).length
        then listVar ((vectors tr).map (fun v => Real.sqrt (v.1 * v.1 + v.2 * v.2)))
        else 0) / 100) 10 := le_min (by linarith) (by norm_num)
    constructor
    · exact round2_nonneg _ (le_min (by linarith) (by norm_num))
    · exact round2_le _ (min_le_right _ _)

/-- Witness for C5 at a single-record trace: score is 0 (hence in range)
and all sub-metrics are 0. -/
theorem complexity_score_bounds_witness :
    (0 ≤ (calculate_complexity_score [dummyRec]).complexity_score ∧
      (calculate_complexity_score [dummyRec]).complexity_score ≤ 100) ∧
    ((calculate_complexity_score [dummyRec]).complexity_score = 0 ∧
      (calculate_complexity_score [dummyRec]).direction_changes = 0 ∧
      (calculate_complexity_score [dummyRec]).density_score = 0 ∧
      (calculate_complexity_score [dummyRec]).stitch_length_variance = 0) :=
  ⟨(complexity_score_bounds [dummyRec]).1,
    (complexity_score_bounds [dummyRec]).2 (by simp)⟩

lemma segDist_scale (k : ℝ) (hk : 0 ≤ k) (p q : StitchRec) :
    segDist ⟨k * p.x, k * p.y, p.cmd⟩ ⟨k * q.x, k * q.y, q.cmd⟩ = k * segDist p q := by
  unfold segDist
  have harg : (k * q.x - k * p.x) * (k * q.x - k * p.x) +
      (k * q.y - k * p.y) * (k * q.y - k * p.y) =
      k ^ 2 * ((q.x - p.x) * (q.x - p.x) + (q.y - p.y) * (q.y - p.y)) := by ring
  rw [harg, Real.sqrt_mul (sq_nonneg k), Real.sqrt_sq hk]

lemma thread_length_scale (k : ℝ) (hk : 0 ≤ k) (tr : List StitchRec) :
    thread_length (scaleTrace k tr) = k * thread_length tr := by
  unfold thread_length scaleTrace
  rw [consecPairs_map, List.map_map]
  have hfun : ((fun pq : StitchRec × StitchRec => segDist pq.1 pq.2) ∘
      fun pq : StitchRec × StitchRec =>
        ((⟨k * pq.1.x, k * pq.1.y, pq.1.cmd⟩ : StitchRec),
          (⟨k * pq.2.x, k * pq.2.y, pq.2.cmd⟩ : StitchRec))) =
      fun pq : StitchRec × StitchRec => k * segDist pq.1 pq.2 := by
    funext pq
    exact segDist_scale k hk pq.1 pq.2
  rw [hfun, ← List.sum_map_mul_left]

/-- C9: uniformly scaling all coordinates of a trace by any `k ≥ 0`
scales the computed `thread_length_yards` by exactly `k` — thread length
is homogeneous of degree 1 in the coordinates. -/
theorem thread_length_yards_scale (tr : List StitchRec) (k : ℝ) (hk : 0 ≤ k) :
    (calculate_metrics (scaleTrace k tr)).thread_length_yards =
      k * (calculate_metrics tr).thread_length_yards := by
  show thread_length (scaleTrace k tr) * 0.1 / 914.4 =
    k * (thread_length tr * 0.1 / 914.4)
  rw [thread_length_scale k hk tr]
  ring

/-- Witness for C9: scaling a concrete 2-record trace by 2 doubles its
thread length in yards. -/
theorem thread_length_yards_scale_witness :
    (calculate_metrics (scaleTrace 2 [⟨0, 0, 0⟩, ⟨3, 4, 0⟩])).thread_length_yards =
      2 * (calculate_metrics [⟨0, 0, 0⟩, ⟨3, 4, 0⟩]).thread_length_yards :=
  thread_length_yards_scale [⟨0, 0, 0⟩, ⟨3, 4, 0⟩] 2 (by norm_num)

/-- Counterexample for C1: the two-record all-JUMP trace
`[(0,0,JUMP), (100,0,JUMP)]` has no two consecutive STITCH records, yet
the metrics computation reports a nonzero `thread_length_yards` — the
loop in `_calculate_metrics` never inspects the command kind. -/
theorem thread_length_counts_jumps :
    noConsecStitch [⟨0, 0, JUMP⟩, ⟨100, 0, JUMP⟩] ∧
    (calculate_metrics [⟨0, 0, JUMP⟩, ⟨100, 0, JUMP⟩]).thread_length_yards ≠ 0 := by
  constructor
  · intro pq hpq
    have hcp : consecPairs ([⟨0, 0, JUMP⟩, ⟨100, 0, JUMP⟩] : List StitchRec) =
        [(⟨0, 0, JUMP⟩, ⟨100, 0, JUMP⟩)] := rfl
    rw [hcp, List.mem_singleton] at hpq
    subst hpq
    rintro ⟨h1, _⟩
    simp only [JUMP, STITCH] at h1
    exact absurd h1 (by norm_num)
  · have htl : thread_length [⟨0, 0, JUMP⟩, ⟨100, 0, JUMP⟩] = 100 := by
      show Real.sqrt ((100 - 0) * (100 - 0) + (0 - 0) * (0 - 0)) + 0 = 100
      rw [add_zero]
      have harg : ((100 : ℝ) - 0) * (100 - 0) + (0 - 0) * (0 - 0) = 100 ^ 2 := by norm_num
      rw [harg, Real.sqrt_sq (by norm_num : (0 : ℝ) ≤ 100)]
    show thread_length [⟨0, 0, JUMP⟩, ⟨100, 0, JUMP⟩] * 0.1 / 914.4 ≠ 0
    rw [htl]
    norm_num

/-- C1 amended: the thread length reported by the metrics computation
accumulates the Euclidean distance between EVERY consecutive pair of
records, regardless of command kind (jumps and colour changes
included); it is 0 for every trace with fewer than two records. -/
theorem thread_length_every_pair (tr : List StitchRec) :
    (calculate_metrics tr).thread_length_yards =
      thread_length_all_pairs tr * 0.1 / 914.4 ∧
    (tr.length < 2 → (calculate_metrics tr).thread_length_yards = 0) := by
  constructor
  · show thread_length tr * 0.1 / 914.4 = thread_length_all_pairs tr * 0.1 / 914.4
    have hTL : thread_length tr = thread_length_all_pairs tr := by
      unfold thread_length thread_length_all_pairs segDist
      exact sum_map_consecPairs _ tr dummyRec
    rw [hTL]
  · intro h2
    show thread_length tr * 0.1 / 914.4 = 0
    have htl0 : thread_length tr = 0 := by
      rcases tr with _ | ⟨a, _ | ⟨b, t⟩⟩
      · rfl
      · rfl
      · simp only [List.length_cons] at h2
        omega
    rw [htl0]
    norm_num

/-- Witness for C1 amended, at the all-JUMP trace (first conjunct) and a
single-record trace (second conjunct). -/
theorem thread_length_every_pair_witness :
    (calculate_metrics [⟨0, 0, JUMP⟩, ⟨100, 0, JUMP⟩]).thread_length_yards =
      thread_length_all_pairs [⟨0, 0, JUMP⟩, ⟨100, 0, JUMP⟩] * 0.1 / 914.4 ∧
    (calculate_metrics [dummyRec]).thread_length_yards = 0 :=
  ⟨(thread_length_every_pair [⟨0, 0, JUMP⟩, ⟨100, 0, JUMP⟩]).1,
    (thread_length_every_pair [dummyRec]).2 (by simp)⟩

/-- C8: for every trace the metrics computation returns
`width_mm = (max_x − min_x) × 0.1` and `height_mm = (max_y − min_y) × 0.1`
over the records' coordinates, and on the Scenario A trace
`[(0,0,STITCH), (100,0,STITCH), (100,100,STITCH)]` it returns
`width_mm = 10`, `height_mm = 10` and
`thread_length_yards = (100 + 100) × 0.1 / 914.4`. -/
theorem metrics_bbox_and_scenario :
    (∀ tr : List StitchRec,
      (calculate_metrics tr).width_mm = (maxX tr - minX tr) * 0.1 ∧
      (calculate_metrics tr).height_mm = (maxY tr - minY tr) * 0.1) ∧
    (calculate_metrics
        [⟨0, 0, STITCH⟩, ⟨100, 0, STITCH⟩, ⟨100, 100, STITCH⟩]).width_mm = 10 ∧
    (calculate_metrics
        [⟨0, 0, STITCH⟩, ⟨100, 0, STITCH⟩, ⟨100, 100, STITCH⟩]).height_mm = 10 ∧
    (calculate_metrics
        [⟨0, 0, STITCH⟩, ⟨100, 0, STITCH⟩, ⟨100, 100, STITCH⟩]).thread_length_yards =
      (100 + 100) * 0.1 / 914.4 := by
  refine ⟨fun tr => ⟨rfl, rfl⟩, ?_, ?_, ?_⟩
  · show (maxX [⟨0, 0, STITCH⟩, ⟨100, 0, STITCH⟩, ⟨100, 100, STITCH⟩] -
      minX [⟨0, 0, STITCH⟩, ⟨100, 0, STITCH⟩, ⟨100, 100, STITCH⟩]) * 0.1 = 10
    norm_num [maxX, minX, listMax, listMin, List.foldl]
  · show (maxY [⟨0, 0, STITCH⟩, ⟨100, 0, STITCH⟩, ⟨100, 100, STITCH⟩] -
      minY [⟨0, 0, STITCH⟩, ⟨100, 0, STITCH⟩, ⟨100, 100, STITCH⟩]) * 0.1 = 10
    norm_num [maxY, minY, listMax, listMin, List.foldl]
  · show thread_length [⟨0, 0, STITCH⟩, ⟨100, 0, STITCH⟩, ⟨100, 100, STITCH⟩] *
      0.1 / 914.4 = (100 + 100) * 0.1 / 914.4
    have htl : thread_length [⟨0, 0, STITCH⟩, ⟨100, 0, STITCH⟩, ⟨100, 100, STITCH⟩] =
        200 := by
      show Real.sqrt ((100 - 0) * (100 - 0) + (0 - 0) * (0 - 0)) +
        (Real.sqrt ((100 - 100) * (100 - 100) + (100 - 0) * (100 - 0)) + 0) = 200
      have h1 : ((100 : ℝ) - 0) * (100 - 0) + (0 - 0) * (0 - 0) = 100 ^ 2 := by norm_num
      have h2 : ((100 : ℝ) - 100) * (100 - 100) + (100 - 0) * (100 - 0) = 100 ^ 2 := by
        norm_num
      rw [h1, h2, Real.sqrt_sq (by norm_num : (0 : ℝ) ≤ 100)]
      norm_num
    rw [htl]
    norm_num

/-- Counterexample for C3: there is no `InvalidDesignError` / `DecodeError`
distinction in the code.  Both the invalid-decode-result path and the
decoder-exception path surface as the SAME exception type — the blanket
`except Exception` re-wrap `Exception("Error analyzing design: ...")` —
so the two failure kinds are not distinguishable by the caller's
exception type. -/
theorem analyze_file_one_failure_type :
    (analyze_file (.ok DecodeResult.none)).1 =
      Except.error (PyExc.generic "Error analyzing design: Invalid design file") ∧
    (analyze_file (.error (.decoder "boom"))).1 =
      Except.error (PyExc.generic "Error analyzing design: boom") ∧
    (PyExc.generic "Error analyzing design: Invalid design file").isGeneric = true ∧
    (PyExc.generic "Error analyzing design: boom").isGeneric = true := by
  exact ⟨rfl, rfl, rfl, rfl⟩

/-- C3 amended: every failure of `analyze_file` raises the same generic
`Exception`.  A decoder exception is wrapped as
`"Error analyzing design: " + str(e)`; a decoder result that is falsy or
lacks stitch data triggers an internal `ValueError("Invalid design file")`
that the blanket handler re-wraps to
`"Error analyzing design: Invalid design file"`.  The two failure kinds
differ only in message text, never in exception type; a non-empty
decoded pattern yields the metrics dict. -/
theorem analyze_file_failure_modes :
    (∀ e : PyExc, (analyze_file (.error e)).1 =
      .error (.generic ("Error analyzing design: " ++ e.msg))) ∧
    (analyze_file (.ok DecodeResult.none)).1 =
      .error (.generic "Error analyzing design: Invalid design file") ∧
    (analyze_file (.ok DecodeResult.noStitches)).1 =
      .error (.generic "Error analyzing design: Invalid design file") ∧
    (∀ s : List StitchRec, s ≠ [] →
      (analyze_file (.ok (.pattern s))).1 = .ok (calculate_metrics s)) := by
  refine ⟨fun e => rfl, rfl, rfl, fun s hs => ?_⟩
  have hne : s.isEmpty = false := by
    cases s with
    | nil => exact absurd rfl hs
    | cons a t => rfl
  simp [analyze_file, hne]

/-- Witness for C3 amended at a concrete non-empty pattern. -/
theorem analyze_file_failure_modes_witness :
    (analyze_file (.ok (.pattern [dummyRec]))).1 = .ok (calculate_metrics [dummyRec]) :=
  analyze_file_failure_modes.2.2.2 [dummyRec] (by simp)

/-- Counterexample for C4: when the decoder raises, `os.remove` (placed
after `pyembroidery.read` inside the `try`, with no `finally`) never
runs, and the temporary file staged for the decoder is left behind. -/
theorem temp_file_leak_on_decoder_error :
    (analyze_file (.error (.decoder "corrupt header"))).2 = false := rfl

/-- C4 amended: the temporary file is removed exactly when the decoder
call returns without raising — on the success path and on the
invalid-result path, but NOT when the decoder raises. -/
theorem temp_file_removed_iff_decoder_returns :
    (∀ e : PyExc, (analyze_file (.error e)).2 = false) ∧
    (∀ r : DecodeResult, (analyze_file (.ok r)).2 = true) := by
  refine ⟨fun e => rfl, fun r => ?_⟩
  cases r with
  | none => rfl
  | noStitches => rfl
  | pattern s =>
    by_cases hs : s.isEmpty <;> simp [analyze_file, hs]

lemma atan2_zero_negone : atan2 0 (-1) = Real.pi := by
  unfold atan2
  exact Complex.arg_eq_pi_iff.mpr ⟨show (-1 : ℝ) < 0 by norm_num, rfl⟩

lemma atan2_negone_negone : atan2 (-1) (-1) = Real.pi / 4 - Real.pi := by
  unfold atan2
  rw [Complex.arg_of_re_neg_of_im_neg (show ((-1 : ℝ)) < 0 by norm_num)
    (show ((-1 : ℝ)) < 0 by norm_num)]
  have habs : Complex.abs ⟨-1, -1⟩ = Real.sqrt 2 := by
    rw [Complex.abs_apply, Complex.normSq_mk]
    norm_num
  have him : (-(⟨-1, -1⟩ : ℂ)).im = 1 := by
    show -(-1 : ℝ) = 1
    norm_num
  rw [him, habs]
  have h12 : (1 : ℝ) / Real.sqrt 2 = Real.sqrt 2 / 2 := by
    rw [div_eq_div_iff (Real.sqrt_pos.mpr (by norm_num : (0 : ℝ) < 2)).ne'
      (by norm_num : (2 : ℝ) ≠ 0),
      one_mul, Real.mul_self_sqrt (by norm_num : (0 : ℝ) ≤ 2)]
  rw [h12, ← Real.sin_pi_div_four,
    Real.arcsin_sin (by linarith [Real.pi_pos]) (by linarith [Real.pi_pos])]

lemma countGT_consecPairs (c : ℝ) (l : List ℝ) :
    countGT c ((consecPairs l).map (fun ab => |ab.2 - ab.1|)) =
      ∑ i in Finset.range (l.length - 1),
        if c < |l.getD (i + 1) 0 - l.getD i 0| then 1 else 0 := by
  unfold countGT
  rw [List.map_map]
  exact sum_map_consecPairs (fun ab : ℝ × ℝ => if c < |ab.2 - ab.1| then (1 : ℕ) else 0) l 0

/-- Counterexample for C2: on the trace
`[(0,0), (-1,0), (-2,-1)]` (all STITCH) the two headings are `π` and
`π/4 − π = −3π/4`, so the raw absolute delta is `7π/4 > π/4` while its
reduction to `[0, π]` is exactly `π/4`, which does NOT exceed `π/4`:
the code counts 1 direction change where the spec's reduced count is
0 — the code never reduces `|Δangle|` to `[0, π]`. -/
theorem direction_changes_not_reduced :
    (calculate_complexity_score
      [⟨0, 0, STITCH⟩, ⟨-1, 0, STITCH⟩, ⟨-2, -1, STITCH⟩]).direction_changes = 1 ∧
    direction_changes_spec
      [⟨0, 0, STITCH⟩, ⟨-1, 0, STITCH⟩, ⟨-2, -1, STITCH⟩] = 0 := by
  have hac : angleChanges [⟨0, 0, STITCH⟩, ⟨-1, 0, STITCH⟩, ⟨-2, -1, STITCH⟩] =
      [|atan2 (-1) (-1) - atan2 0 (-1)|] := by
    show [|atan2 ((-1 : ℝ) - 0) ((-2 : ℝ) - (-1)) - atan2 ((0 : ℝ) - 0) ((-1 : ℝ) - 0)|] = _
    norm_num
  have hδ : |atan2 (-1) (-1) - atan2 0 (-1)| = 7 / 4 * Real.pi := by
    rw [atan2_negone_negone, atan2_zero_negone]
    have h1 : Real.pi / 4 - Real.pi - Real.pi = -(7 / 4 * Real.pi) := by ring
    rw [h1, abs_neg, abs_of_pos (by linarith [Real.pi_pos])]
  constructor
  · unfold calculate_complexity_score
    rw [if_neg (by norm_num)]
    dsimp only
    rw [hac, hδ]
    unfold countGT
    simp only [List.map_cons, List.map_nil, List.sum_cons, List.sum_nil]
    rw [if_pos (by linarith [Real.pi_pos])]
    rfl
  · unfold direction_changes_spec
    rw [hac]
    simp only [List.map_cons, List.map_nil]
    rw [hδ]
    have hred : reduceAngle (7 / 4 * Real.pi) = Real.pi / 4 := by
      unfold reduceAngle
      rw [if_pos (by linarith [Real.pi_pos])]
      ring
    rw [hred]
    unfold countGT
    simp only [List.map_cons, List.map_nil, List.sum_cons, List.sum_nil]
    rw [if_neg (lt_irrefl _)]
    rfl

/-- C2 amended: `direction_changes` equals the count of RAW absolute
angular deltas between consecutive headings (atan2 of consecutive
displacement vectors, all command kinds included) that exceed `π/4` —
with no reduction of the delta to `[0, π]`. -/
theorem direction_changes_no_reduction (tr : List StitchRec) (h : 2 ≤ tr.length) :
    (calculate_complexity_score tr).direction_changes = direction_changes_raw tr := by
  unfold calculate_complexity_score
  rw [if_neg (by omega)]
  dsimp only
  unfold angleChanges direction_changes_raw
  rw [countGT_consecPairs]
  have hlen : (headings tr).length = tr.length - 1 := by
    unfold headings vectors
    rw [List.length_map, List.length_map, consecPairs_length]
  rw [hlen]
  have hrange : tr.length - 1 - 1 = tr.length - 2 := by omega
  rw [hrange]
  refine Finset.sum_congr rfl fun i hi => ?_
  have hi' := Finset.mem_range.mp hi
  have hgetD : ∀ j, j < tr.length - 1 → (headings tr).getD j 0 = heading_at tr j := by
    intro j hj
    unfold headings
    rw [getD_map _ _ 0 ((0 : ℝ), (0 : ℝ)) j
      (by unfold vectors; rw [List.length_map, consecPairs_length]; exact hj)]
    unfold vectors
    rw [getD_map _ _ ((0 : ℝ), (0 : ℝ)) (dummyRec, dummyRec) j
      (by rw [consecPairs_length]; exact hj),
      consecPairs_getD tr dummyRec j (by omega)]
    rfl
  rw [hgetD i (by omega), hgetD (i + 1) (by omega)]

/-- Witness for C2 amended at a concrete 2-record trace. -/
theorem direction_changes_no_reduction_witness :
    (calculate_complexity_score
      [⟨0, 0, STITCH⟩, ⟨100, 0, STITCH⟩]).direction_changes =
      direction_changes_raw [⟨0, 0, STITCH⟩, ⟨100, 0, STITCH⟩] :=
  direction_changes_no_reduction [⟨0, 0, STITCH⟩, ⟨100, 0, STITCH⟩] (by simp)
